import Mathlib

/-!
The yapl front end: token scanner and expression parser.

A shallow embedding of `src/compiler/src/main.c`.

Memory model.  The source text is a `List Char`; the byte at an offset past the
end of the list reads as the terminator `NUL`, so a list stands for the buffer
`bytes ++ [NUL]`.  A `char *` into the source is an offset (`Nat`) into that
list.  A pointer that the C code tests against `NULL` is an `Option`; a callee
that writes through a pointer returns the new pointee.  Standard output is not
modelled.  Loops that C leaves unbounded take a fuel argument and return
`none` when the fuel runs out.
-/

namespace Yapl

/-- The string terminator. -/
def NUL : Char := Char.ofNat 0

/-- The source buffer: its bytes, the terminator implied at the end. -/
abbrev Buffer := List Char

/-- The byte read through a pointer: `*(buf + p)`. -/
def deref (buf : Buffer) (p : Nat) : Char := buf.getD p NUL

/-- The C string that starts at offset `p`: the bytes before the first terminator. -/
def cstr (buf : Buffer) (p : Nat) : List Char := (buf.drop p).takeWhile (fun c => c != NUL)

/-! ## Library functions of `<string.h>` and `<stdlib.h>` (C standard semantics) -/

/-- Length of the initial segment of `s` made of bytes in `accept`: `strspn`. -/
def strspn (s accept : List Char) : Nat := (s.takeWhile (fun c => accept.contains c)).length

/-- Length of the initial segment of `s` made of bytes not in `reject`: `strcspn`. -/
def strcspn (s reject : List Char) : Nat := (s.takeWhile (fun c => !reject.contains c)).length

/-- Whether `strpbrk s accept` is `NULL`: no byte of `s` is in `accept`. -/
def strpbrk_null (s accept : List Char) : Bool := s.all (fun c => !accept.contains c)

/-- The bytes `isspace` accepts in the C locale. -/
def isspace (c : Char) : Bool :=
  c == ' ' || c == Char.ofNat 9 || c == Char.ofNat 10 || c == Char.ofNat 11 ||
  c == Char.ofNat 12 || c == Char.ofNat 13

/-- Decimal digits. -/
def isdigit (c : Char) : Bool := decide (48 ≤ c.toNat) && decide (c.toNat ≤ 57)

/-- The number a run of decimal digits denotes. -/
def digits_value (ds : List Char) : Nat := ds.foldl (fun acc c => 10 * acc + (c.toNat - 48)) 0

def LLONG_MAX : Int := 2 ^ 63 - 1

def LLONG_MIN : Int := -(2 ^ 63)

/-- Conversion `strtoll(nptr, &end, 10)` on the C string `s` at `nptr`: the value and
`end - nptr`.  White space is skipped, one sign is taken, then the longest run
of digits; without a digit nothing is consumed and the value is 0; a value out of
range is clamped. -/
def strtoll (s : List Char) : Int × Nat :=
  let ws := (s.takeWhile isspace).length
  let s1 := s.drop ws
  let neg := s1.head? == some '-'
  let sign := if s1.head? == some '-' || s1.head? == some '+' then 1 else 0
  let ds := (s1.drop sign).takeWhile isdigit
  if ds.isEmpty then (0, 0)
  else
    let mag : Int := (digits_value ds : Nat)
    let v : Int :=
      if neg then (if -mag < LLONG_MIN then LLONG_MIN else -mag)
      else (if LLONG_MAX < mag then LLONG_MAX else mag)
    (v, ws + sign + ds.length)

/-! ## Errors -/

inductive ErrorType where
  | ERROR_NONE
  | ERROR_ARGUMENTS
  | ERROR_TYPE
  | ERROR_GENERIC
  | ERROR_SYNTAX
  | ERROR_TODO
  deriving DecidableEq, Repr

structure Error where
  type : ErrorType
  msg : Option (List Char)
  deriving DecidableEq, Repr

def ok : Error := ⟨ErrorType.ERROR_NONE, none⟩

/-! ## Tokens and the scanner -/

def whitespace : List Char := [' ', '\r', '\n']

def delimiters : List Char := [' ', '\r', '\n', ',', '(', ')', ':', '+']

/-- A span of the source: two pointers into the buffer. -/
structure Token where
  beginning : Nat
  end_ : Nat
  deriving DecidableEq, Repr

/-- Scanner `lex(source, token)`: the error and the token slot after the call. -/
def lex (buf : Buffer) (source : Option Nat) (token : Option Token) : Error × Option Token :=
  match source, token with
  | some source, some _ =>
    let beginning := source + strspn (cstr buf source) whitespace
    let end_ := beginning
    if deref buf end_ = NUL then (ok, some ⟨beginning, end_⟩)
    else
      let end_ := end_ + strcspn (cstr buf beginning) delimiters
      let end_ := if end_ = beginning then end_ + 1 else end_
      (ok, some ⟨beginning, end_⟩)
  | _, _ => (⟨ErrorType.ERROR_ARGUMENTS, some "Cannot lex empty source.".toList⟩, token)

/-- Identifier check `valid_identifier(id)`: 1 when no byte of `id` is a delimiter. -/
def valid_identifier (id : List Char) : Int := if strpbrk_null id delimiters then 1 else 0

/-! ## Nodes -/

inductive NodeType where
  | NODE_TYPE_NONE
  | NODE_TYPE_INTEGER
  | NODE_TYPE_SYMBOL
  | NODE_TYPE_VARIABLE_DECLARATION
  | NODE_TYPE_VARIABLE_DECLARATION_INITIALIZED
  | NODE_TYPE_PROGRAM
  | NODE_TYPE_BINARY_OPERATOR
  | NODE_TYPE_UNARY_OPERATOR
  deriving DecidableEq, Repr

/-- The number of node kinds, the enumerator `NODE_TYPE_MAX`. -/
def NODE_TYPE_MAX : Nat := 8

/-- The union `NodeValue`: the member last written, or nothing written yet. -/
inductive NodeValue where
  | integer (i : Int)
  | symbol (s : Option (List Char))
  | indeterminate
  deriving DecidableEq, Repr

/-- A `Node *`: null, or the node it points to. -/
inductive NodePtr where
  | null
  | node (type : NodeType) (value : NodeValue) (children : NodePtr) (next_child : NodePtr)
  deriving DecidableEq, Repr

/-- A `Node` held by value. -/
structure Node where
  type : NodeType
  value : NodeValue
  children : NodePtr
  next_child : NodePtr
  deriving DecidableEq, Repr

/-- The address of a node held by value. -/
def Node.addr (n : Node) : NodePtr := NodePtr.node n.type n.value n.children n.next_child

/-- A node after `memset(&node, 0, sizeof(Node))`, as `main` prepares it. -/
def Node.zeroed : Node := ⟨NodeType.NODE_TYPE_NONE, NodeValue.integer 0, NodePtr.null, NodePtr.null⟩

/-- The loop over the child chain in `node_print`; every pass makes the same call,
whose outcome is `call`. -/
def node_print_children (call : Option Unit) : NodePtr → Option Unit
  | NodePtr.null => some ()
  | NodePtr.node _ _ _ next_child => call.bind (fun _ => node_print_children call next_child)

/-- Printer `node_print(node, indent_level)`: `some ()` when the call returns
within `fuel` nested calls.  The recursive call passes `node`, not `child`. -/
def node_print : Nat → NodePtr → Nat → Option Unit
  | _, NodePtr.null, _ => some ()
  | 0, NodePtr.node _ _ _ _, _ => none
  | fuel + 1, NodePtr.node type value children next_child, indent_level =>
    node_print_children
      (node_print fuel (NodePtr.node type value children next_child) (indent_level + 4)) children

/-! ## Parser -/

/-- The loop of `token_equalp`: runs while `*string` is not the terminator and
`beg < end`. -/
def token_equalp_loop (buf : Buffer) : List Char → Nat → Nat → Int
  | [], _, _ => 1
  | c :: string, beg, end_ =>
    if c != NUL && decide (beg < end_) then
      if c != deref buf beg then 0 else token_equalp_loop buf string (beg + 1) end_
    else 1

/-- Comparison `token_equalp(string, token)`. -/
def token_equalp (buf : Buffer) (string : Option (List Char)) (token : Option Token) : Int :=
  match token with
  | none => 0
  | some token =>
    match string with
    | none => 0
    | some string => token_equalp_loop buf string token.beginning token.end_

/-- Conversion `parse_integer(token, node)`: the return value and the node after the call. -/
def parse_integer (buf : Buffer) (token : Option Token) (node : Option Node) : Int × Option Node :=
  match token, node with
  | some token, some node =>
    let token_length := token.end_ - token.beginning
    if token_length = 1 ∧ deref buf token.beginning = '0' then
      (1, some { node with type := NodeType.NODE_TYPE_INTEGER, value := NodeValue.integer 0 })
    else
      let r := strtoll (cstr buf token.beginning)
      let node := { node with value := NodeValue.integer r.1 }
      if r.1 ≠ 0 then
        if token.beginning + r.2 ≠ token.end_ then (0, some node)
        else (1, some { node with type := NodeType.NODE_TYPE_INTEGER })
      else (0, some node)
  | _, _ => (0, node)

/-- Symbol construction `parse_symbol(current, symbol)`: the error and the node after the call. -/
def parse_symbol (buf : Buffer) (current : Token) (_symbol : Node) : Error × Node :=
  let token_length := current.end_ - current.beginning
  let symbol_string := ((buf.drop current.beginning).take token_length).takeWhile (fun c => c != NUL)
  let symbol : Node :=
    ⟨NodeType.NODE_TYPE_SYMBOL, NodeValue.symbol (some symbol_string), NodePtr.null, NodePtr.null⟩
  if valid_identifier symbol_string = 0 then
    (⟨ErrorType.ERROR_TODO, some ("Invalid identifier: ".toList ++ symbol_string)⟩, symbol)
  else (ok, symbol)

/-- The call `lex(current.end, &current)`: the error and `current` after the call. -/
def lex_current (buf : Buffer) (current : Token) : Error × Token :=
  let r := lex buf (some current.end_) (some current)
  (r.1, r.2.getD current)

/-- How one pass through the body of the loop of `parse_expr` ends. -/
inductive Flow where
  /-- A `return` statement. -/
  | ret (err : Error) (end_ : Nat) (result : Node)
  /-- A `break`. -/
  | brk (err : Error) (end_ : Nat) (result : Node)
  /-- The end of the body: the `printf` and `node_print` calls, then the loop test. -/
  | next (err : Error) (current : Token) (end_ : Nat) (result : Node)
  deriving DecidableEq, Repr

/-- The body of the `while` loop of `parse_expr`, entered with the token just scanned. -/
def parse_expr_body (buf : Buffer) (err : Error) (current : Token) (result : Node) : Flow :=
  let end_ := current.end_
  let token_length := current.end_ - current.beginning
  if token_length = 0 then Flow.brk err end_ result
  else
    let pi := parse_integer buf (some current) (some result)
    let result := pi.2.getD result
    if pi.1 ≠ 0 then
      let l := lex_current buf current
      if l.1.type ≠ ErrorType.ERROR_NONE then Flow.ret l.1 end_ result
      else Flow.next l.1 l.2 l.2.end_ result
    else if token_equalp buf (some "let".toList) (some current) ≠ 0 then
      let l := lex_current buf current
      if l.1.type ≠ ErrorType.ERROR_NONE then Flow.ret l.1 end_ result
      else
        let current := l.2
        let end_ := current.end_
        let s := parse_symbol buf current result
        let result := s.2
        if s.1.type ≠ ErrorType.ERROR_NONE then Flow.ret s.1 end_ result
        else
          let l := lex_current buf current
          if l.1.type ≠ ErrorType.ERROR_NONE then Flow.ret l.1 end_ result
          else
            let current := l.2
            let end_ := current.end_
            if current.end_ - current.beginning = 0 then Flow.brk l.1 end_ result
            else if token_equalp buf (some ":".toList) (some current) ≠ 0 then
              let l := lex_current buf current
              if l.1.type ≠ ErrorType.ERROR_NONE then Flow.ret l.1 end_ result
              else
                let current := l.2
                let end_ := current.end_
                if current.end_ - current.beginning = 0 then Flow.brk l.1 end_ result
                else if token_equalp buf (some "integer".toList) (some current) ≠ 0 then
                  Flow.ret ok end_
                    ⟨NodeType.NODE_TYPE_VARIABLE_DECLARATION, NodeValue.indeterminate,
                      NodePtr.null, NodePtr.null⟩
                else
                  Flow.next ⟨ErrorType.ERROR_SYNTAX, some "Unexpected token".toList⟩
                    current end_ result
            else
              Flow.next ⟨ErrorType.ERROR_SYNTAX, some "Unexpected token".toList⟩
                current end_ result
    else
      let s := parse_symbol buf current result
      Flow.next s.1 current end_ s.2

/-- What `parse_expr` hands back: the returned error, `*end` and `*result`. -/
structure Parsed where
  err : Error
  end_ : Nat
  result : Node
  deriving DecidableEq, Repr

/-- The `while` loop of `parse_expr`: `none` when `fuel` passes do not reach a
`return` or `break`, or a `node_print` call does not return. -/
def parse_expr_loop (buf : Buffer) : Nat → Token → Nat → Node → Option Parsed
  | 0, _, _, _ => none
  | fuel + 1, current, end_, result =>
    let l := lex_current buf current
    if l.1.type ≠ ErrorType.ERROR_NONE then some ⟨l.1, end_, result⟩
    else
      match parse_expr_body buf l.1 l.2 result with
      | Flow.ret err end_ result => some ⟨err, end_, result⟩
      | Flow.brk err end_ result => some ⟨err, end_, result⟩
      | Flow.next _ current end_ result =>
        (node_print fuel result.addr 0).bind (fun _ => parse_expr_loop buf fuel current end_ result)

/-- Parser `parse_expr(source, end, result)` on the buffer `buf`, where `end_` and
`result` are what `*end` and `*result` hold at the call. -/
def parse_expr (fuel : Nat) (buf : Buffer) (source : Nat) (end_ : Nat) (result : Node) :
    Option Parsed :=
  parse_expr_loop buf fuel ⟨source, source⟩ end_ result

/-- The length of the token at the head of `rest`, where `rest` starts with no white space. -/
def token_span (rest : List Char) : Nat :=
  match rest with
  | [] => 0
  | c :: r =>
    if c = NUL then 0
    else if c ∈ delimiters then 1
    else 1 + strcspn (r.takeWhile (fun c => c != NUL)) delimiters

/-- The offset of the terminator of the C string that starts at offset `p`. -/
def terminator (buf : Buffer) (p : Nat) : Nat := p + (cstr buf p).length

/-! ## Node comparison and environments

Assertions are compiled in (the source defines no `NDEBUG`): a failed `assert` aborts,
and the call yields `none`. -/

/-- The member `value.integer` of the union, defined when it was the member last written. -/
def NodeValue.as_integer : NodeValue → Option Int
  | NodeValue.integer i => some i
  | _ => none

/-- The part of `node_cmp` after the assertion, for two present nodes. -/
def node_cmp_body (a b : Node) : Option Int :=
  if a.type ≠ b.type then some 0
  else
    match a.type with
    | NodeType.NODE_TYPE_NONE => if b.type = NodeType.NODE_TYPE_NONE then some 1 else some 0
    | NodeType.NODE_TYPE_INTEGER =>
      match a.value.as_integer, b.value.as_integer with
      | some x, some y => if x = y then some 1 else some 0
      | _, _ => none
    | NodeType.NODE_TYPE_PROGRAM => some 1
    | _ => some 1

/-- Comparison `node_cmp(a, b)`: `none` when the call aborts on its assertion
`NODE_TYPE_MAX == 3`. -/
def node_cmp (a b : Option Node) : Option Int :=
  match a, b with
  | none, none => some 1
  | none, some _ => some 0
  | some _, none => some 0
  | some a, some b => if NODE_TYPE_MAX = 3 then node_cmp_body a b else none

/-- A `Binding *`: null, memory never written, or the binding it points to. -/
inductive BindingPtr where
  | null
  | indeterminate
  | binding (id : Node) (value : Node) (next : BindingPtr)
  deriving DecidableEq, Repr

/-- An `Environment *`. -/
inductive EnvironmentPtr where
  | null
  | env (parent : EnvironmentPtr) (bind : BindingPtr)
  deriving DecidableEq, Repr

/-- An `Environment` held by value. -/
structure Environment where
  parent : EnvironmentPtr
  bind : BindingPtr
  deriving DecidableEq, Repr

/-- The frame `environment_create(parent)` allocates. -/
def environment_create (parent : EnvironmentPtr) : Environment := ⟨parent, BindingPtr.null⟩

/-- The parameter `env` of `environment_set(env, id, value)` when the call returns: the
callee's own copy of the frame, with the new binding as its head.  The field
`binding->next` is never written. -/
def environment_set_local (env : Environment) (id value : Node) : Environment :=
  { env with bind := BindingPtr.binding id value BindingPtr.indeterminate }

/-- The caller's frame after `environment_set(env, id, value)`: `env` is passed by
value and nothing is returned, so the assignment `env.bind = binding` stays in the
callee's copy. -/
def environment_set (env : Environment) (id value : Node) : Environment :=
  let _callee := environment_set_local env id value
  env

/-- The loop of `environment_get` over the binding chain: `none` when `node_cmp`
aborts or the chain runs into memory never written. -/
def environment_get_loop (id : Node) : BindingPtr → Option Node
  | BindingPtr.null =>
    some ⟨NodeType.NODE_TYPE_NONE, NodeValue.integer 0, NodePtr.null, NodePtr.null⟩
  | BindingPtr.indeterminate => none
  | BindingPtr.binding bid _ next =>
    match node_cmp (some bid) (some id) with
    | none => none
    | some r => if r ≠ 0 then some bid else environment_get_loop id next

/-- Lookup `environment_get(env, id)`. -/
def environment_get (env : Environment) (id : Node) : Option Node :=
  environment_get_loop id env.bind

/-- What one pass through the loop body keeps true, where `cur` is the token the pass
starts with, `lo` the start of the source and `T` the offset of its terminator: a
returned error is of kind `None` or `Todo`, `*end` stays between `lo` and `T`, and a
pass that reaches the end of the body has consumed a non-empty token, stays before `T`
and leaves a result without children when it had none. -/
def Flow.within (buf : Buffer) (lo T : Nat) (cur : Token) (result : Node) : Flow → Prop
  | Flow.ret err end_ _ =>
    (err.type = ErrorType.ERROR_NONE ∨ err.type = ErrorType.ERROR_TODO) ∧ lo ≤ end_ ∧ end_ ≤ T
  | Flow.brk err end_ _ => err.type = ErrorType.ERROR_NONE ∧ lo ≤ end_ ∧ end_ ≤ T
  | Flow.next _ current end_ r =>
    cur.beginning < cur.end_ ∧ cur.end_ ≤ current.end_ ∧ current.end_ ≤ T ∧
      terminator buf current.end_ = T ∧ lo ≤ end_ ∧ end_ ≤ T ∧
      (result.children = NodePtr.null → r.children = NodePtr.null)

/-! ## Properties of the scanner -/

theorem deref_add (buf : Buffer) (p k : Nat) : deref buf (p + k) = (buf.drop p).getD k NUL := by
  simp [deref, List.getD_eq_getElem?_getD, List.getElem?_drop]

theorem cstr_add (buf : Buffer) (p k : Nat) : cstr buf (p + k) = cstr (buf.drop p) k := by
  simp [cstr, List.drop_drop, Nat.add_comm]

theorem mem_whitespace_iff (c : Char) : c ∈ whitespace ↔ c = ' ' ∨ c = '\r' ∨ c = '\n' := by
  simp [whitespace]

theorem mem_delimiters_iff (c : Char) :
    c ∈ delimiters ↔ c = ' ' ∨ c = '\r' ∨ c = '\n' ∨ c = ',' ∨ c = '(' ∨ c = ')' ∨ c = ':' ∨ c = '+' := by
  simp [delimiters]

theorem NUL_not_mem_delimiters : NUL ∉ delimiters := by decide

theorem NUL_not_mem_whitespace : NUL ∉ whitespace := by decide

theorem whitespace_subset_delimiters {c : Char} (h : c ∈ whitespace) : c ∈ delimiters := by
  rw [mem_whitespace_iff] at h
  rw [mem_delimiters_iff]
  tauto

theorem strspn_whitespace (ws rest : List Char) (hws : ∀ c ∈ ws, c ∈ whitespace)
    (hrest : ∀ c, rest.head? = some c → c ∉ whitespace) :
    strspn ((ws ++ rest).takeWhile (fun c => c != NUL)) whitespace = ws.length := by
  have h1 : ∀ c ∈ ws, (fun c => c != NUL) c = true := by
    intro c hc
    have := hws c hc
    simp only [bne_iff_ne, ne_eq]
    intro h
    exact NUL_not_mem_whitespace (h ▸ this)
  rw [List.takeWhile_append_of_pos h1]
  unfold strspn
  rw [List.takeWhile_append_of_pos (by simpa using hws)]
  cases rest with
  | nil => simp
  | cons c r =>
    have hc := hrest c rfl
    by_cases hn : c = NUL
    · simp [hn]
    · simp [List.takeWhile_cons, hn, hc]

theorem lex_view (buf : Buffer) (source : Nat) (tok : Token) (ws rest : List Char)
    (hbuf : buf.drop source = ws ++ rest) (hws : ∀ c ∈ ws, c ∈ whitespace)
    (hrest : ∀ c, rest.head? = some c → c ∉ whitespace) :
    lex buf (some source) (some tok) =
      (ok, some ⟨source + ws.length, source + ws.length + token_span rest⟩) := by
  have hspn : strspn (cstr buf source) whitespace = ws.length := by
    rw [cstr, hbuf]; exact strspn_whitespace ws rest hws hrest
  have hdrop : buf.drop (source + ws.length) = rest := by
    rw [← List.drop_drop, hbuf, List.drop_left]
  have hderef : deref buf (source + ws.length) = rest.getD 0 NUL := by
    rw [deref_add, hbuf, List.getD_append_right _ _ _ _ (Nat.le_refl _)]; simp
  have hcstr : cstr buf (source + ws.length) = rest.takeWhile (fun c => c != NUL) := by
    rw [cstr, hdrop]
  simp only [lex, hspn, hderef, hcstr]
  cases rest with
  | nil => simp [token_span]
  | cons c r =>
    by_cases hn : c = NUL
    · simp [token_span, hn]
    · by_cases hd : c ∈ delimiters
      · simp [token_span, hn, hd, strcspn, List.takeWhile_cons]
      · simp [token_span, hn, hd, strcspn, List.takeWhile_cons]
        omega


theorem strcspn_clean (t rest : List Char) (ht : ∀ c ∈ t, c ∉ delimiters ∧ c ≠ NUL)
    (hrest : ∀ c, rest.head? = some c → c = NUL ∨ c ∈ delimiters) :
    strcspn ((t ++ rest).takeWhile (fun c => c != NUL)) delimiters = t.length := by
  have h1 : ∀ c ∈ t, (fun c => c != NUL) c = true := by
    intro c hc
    simpa using (ht c hc).2
  rw [List.takeWhile_append_of_pos h1]
  unfold strcspn
  have h2 : ∀ c ∈ t, (fun c => !delimiters.contains c) c = true := by
    intro c hc
    simpa using (ht c hc).1
  rw [List.takeWhile_append_of_pos h2]
  cases rest with
  | nil => simp
  | cons c r =>
    rcases hrest c rfl with hn | hd
    · simp [hn]
    · by_cases hn : c = NUL
      · simp [hn]
      · simp [List.takeWhile_cons, hn, hd]

theorem token_span_word (t rest : List Char) (hne : t ≠ [])
    (ht : ∀ c ∈ t, c ∉ delimiters ∧ c ≠ NUL)
    (hrest : ∀ c, rest.head? = some c → c = NUL ∨ c ∈ delimiters) :
    token_span (t ++ rest) = t.length := by
  cases t with
  | nil => exact absurd rfl hne
  | cons c t =>
    have hc := ht c (List.mem_cons_self _ _)
    have ht2 : ∀ a ∈ t, a ∉ delimiters ∧ a ≠ NUL := fun a ha => ht a (List.mem_cons_of_mem _ ha)
    simp only [List.cons_append, token_span, hc.1, hc.2, if_false, strcspn_clean t rest ht2 hrest,
      List.length_cons]
    omega

theorem token_span_delimiter (d : Char) (rest : List Char) (hd : d ∈ delimiters) :
    token_span (d :: rest) = 1 := by
  have hn : d ≠ NUL := fun h => NUL_not_mem_delimiters (h ▸ hd)
  simp [token_span, hn, hd]

theorem token_span_end (rest : List Char) (hrest : ∀ c, rest.head? = some c → c = NUL) :
    token_span rest = 0 := by
  cases rest with
  | nil => rfl
  | cons c r => simp [token_span, hrest c rfl]

/-- Every list splits into its longest prefix free of delimiters and terminators
and a remainder that is empty or starts with one. -/
theorem clean_run_split (l : List Char) :
    ∃ run r2, l = run ++ r2 ∧ (∀ c ∈ run, c ∉ delimiters ∧ c ≠ NUL) ∧
      (∀ c, r2.head? = some c → c = NUL ∨ c ∈ delimiters) := by
  induction l with
  | nil => exact ⟨[], [], rfl, by simp, by simp⟩
  | cons a l ih =>
    by_cases ha : a ∉ delimiters ∧ a ≠ NUL
    · obtain ⟨run, r2, h1, h2, h3⟩ := ih
      refine ⟨a :: run, r2, by simp [h1], ?_, h3⟩
      intro c hc
      rcases List.mem_cons.1 hc with h | h
      · exact h ▸ ha
      · exact h2 c h
    · refine ⟨[], a :: l, rfl, by simp, ?_⟩
      intro c hc
      simp only [List.head?_cons, Option.some.injEq] at hc
      subst hc
      by_cases hn : a = NUL
      · exact Or.inl hn
      · exact Or.inr (by_contra fun hd => ha ⟨hd, hn⟩)


theorem cstr_split (buf : Buffer) (source : Nat) :
    ∃ rest, buf.drop source = cstr buf source ++ rest ∧ (∀ c, rest.head? = some c → c = NUL) := by
  refine ⟨(buf.drop source).dropWhile (fun c => c != NUL), ?_, ?_⟩
  · simp [cstr]
  · intro c hc
    have := List.head?_dropWhile_not (fun c => c != NUL) (buf.drop source)
    rw [hc] at this
    simpa using this

/-- C7: on a source that holds only white space before its terminator, `lex` reports no
error and yields the empty token placed at the terminator. -/
theorem lex_whitespace_only (buf : Buffer) (source : Nat) (tok : Token)
    (h : ∀ c ∈ cstr buf source, c ∈ whitespace) :
    lex buf (some source) (some tok) =
        (ok, some ⟨source + (cstr buf source).length, source + (cstr buf source).length⟩) ∧
      deref buf (source + (cstr buf source).length) = NUL := by
  obtain ⟨rest, hbuf, hrest⟩ := cstr_split buf source
  have hrest2 : ∀ c, rest.head? = some c → c ∉ whitespace := fun c hc =>
    (hrest c hc) ▸ NUL_not_mem_whitespace
  constructor
  · rw [lex_view buf source tok _ rest hbuf h hrest2, token_span_end rest hrest]
    rfl
  · rw [deref_add, hbuf, List.getD_append_right _ _ _ _ (Nat.le_refl _)]
    cases rest with
    | nil => rfl
    | cons c r => simp [hrest c rfl]

theorem lex_whitespace_only_witness :
    lex " \r\n ".toList (some 0) (some ⟨0, 0⟩) = (ok, some ⟨4, 4⟩) ∧
      deref " \r\n ".toList 4 = NUL :=
  lex_whitespace_only " \r\n ".toList 0 ⟨0, 0⟩ (by decide)

/-- C8: when the first byte after the leading white space is one of `,` `(` `)` `:` `+`,
`lex` reports no error and yields the one-byte token that starts at that byte,
whatever follows it. -/
theorem lex_delimiter_token (buf : Buffer) (source : Nat) (tok : Token) (ws rest : List Char)
    (d : Char) (hbuf : buf.drop source = ws ++ d :: rest) (hws : ∀ c ∈ ws, c ∈ whitespace)
    (hd : d ∈ [',', '(', ')', ':', '+']) :
    lex buf (some source) (some tok) =
        (ok, some ⟨source + ws.length, source + ws.length + 1⟩) ∧
      deref buf (source + ws.length) = d := by
  have hdel : d ∈ delimiters := by
    rw [mem_delimiters_iff]; simp at hd; tauto
  have hnws : d ∉ whitespace := by
    rw [mem_whitespace_iff]; simp at hd
    rcases hd with h | h | h | h | h <;> subst h <;> decide
  constructor
  · rw [lex_view buf source tok ws (d :: rest) hbuf hws (by simpa using hnws),
      token_span_delimiter d rest hdel]
  · rw [deref_add, hbuf, List.getD_append_right _ _ _ _ (Nat.le_refl _)]
    simp

theorem lex_delimiter_token_witness :
    lex "  (x".toList (some 0) (some ⟨0, 0⟩) = (ok, some ⟨0 + 2, 0 + 2 + 1⟩) ∧
      deref "  (x".toList (0 + [' ', ' '].length) = '(' :=
  lex_delimiter_token "  (x".toList 0 ⟨0, 0⟩ [' ', ' '] ['x'] '(' (by decide) (by decide) (by decide)


theorem lex_word (buf : Buffer) (source : Nat) (tok : Token) (ws t rest : List Char)
    (hbuf : buf.drop source = ws ++ (t ++ rest)) (hws : ∀ c ∈ ws, c ∈ whitespace)
    (hne : t ≠ []) (ht : ∀ c ∈ t, c ∉ delimiters ∧ c ≠ NUL)
    (hrest : ∀ c, rest.head? = some c → c = NUL ∨ c ∈ delimiters) :
    lex buf (some source) (some tok) =
      (ok, some ⟨source + ws.length, source + ws.length + t.length⟩) := by
  have hhead : ∀ c, (t ++ rest).head? = some c → c ∉ whitespace := by
    intro c hc
    cases t with
    | nil => exact absurd rfl hne
    | cons a t =>
      simp only [List.cons_append, List.head?_cons, Option.some.injEq] at hc
      subst hc
      exact fun h => (ht a (List.mem_cons_self _ _)).1 (whitespace_subset_delimiters h)
  rw [lex_view buf source tok ws (t ++ rest) hbuf hws hhead, token_span_word t rest hne ht hrest]

/-- C9: when the first byte `c` after the leading white space is neither the terminator
nor a delimiter, `lex` reports no error and yields the token that begins at `c` and
ends at the first later offset holding a delimiter or the terminator. -/
theorem lex_maximal_run (buf : Buffer) (source : Nat) (tok : Token) (ws rest : List Char)
    (c : Char) (hbuf : buf.drop source = ws ++ c :: rest) (hws : ∀ a ∈ ws, a ∈ whitespace)
    (hc : c ≠ NUL) (hcd : c ∉ delimiters) :
    ∃ e, lex buf (some source) (some tok) = (ok, some ⟨source + ws.length, e⟩) ∧
      deref buf (source + ws.length) = c ∧
      source + ws.length < e ∧
      (∀ i, source + ws.length ≤ i → i < e → deref buf i ∉ delimiters ∧ deref buf i ≠ NUL) ∧
      (deref buf e = NUL ∨ deref buf e ∈ delimiters) := by
  obtain ⟨run, r2, hsplit, hrun, hr2⟩ := clean_run_split rest
  have ht : ∀ a ∈ c :: run, a ∉ delimiters ∧ a ≠ NUL := by
    intro a ha
    rcases List.mem_cons.1 ha with h | h
    · exact h ▸ ⟨hcd, hc⟩
    · exact hrun a h
  have hbuf2 : buf.drop source = ws ++ ((c :: run) ++ r2) := by
    rw [hbuf, hsplit]; simp
  have hdrop : buf.drop (source + ws.length) = (c :: run) ++ r2 := by
    rw [← List.drop_drop, hbuf2, List.drop_left]
  refine ⟨source + ws.length + (c :: run).length, ?_, ?_, ?_, ?_, ?_⟩
  · exact lex_word buf source tok ws (c :: run) r2 hbuf2 hws (by simp) ht hr2
  · have := deref_add buf (source + ws.length) 0
    rw [Nat.add_zero, hdrop] at this
    simpa using this
  · simp
  · intro i h1 h2
    obtain ⟨k, rfl⟩ := Nat.exists_eq_add_of_le h1
    have hk : k < (c :: run).length := by omega
    rw [deref_add, hdrop, List.getD_append _ _ _ _ hk, List.getD_eq_getElem _ _ hk]
    exact ht _ (List.getElem_mem _)
  · rw [deref_add, hdrop, List.getD_append_right _ _ _ _ (Nat.le_refl _), Nat.sub_self]
    cases r2 with
    | nil => exact Or.inl rfl
    | cons a r => simpa using hr2 a rfl

theorem lex_maximal_run_witness :
    ∃ e, lex " foo(1".toList (some 0) (some ⟨0, 0⟩) = (ok, some ⟨0 + [' '].length, e⟩) ∧
      deref " foo(1".toList (0 + [' '].length) = 'f' ∧
      0 + [' '].length < e ∧
      (∀ i, 0 + [' '].length ≤ i → i < e →
        deref " foo(1".toList i ∉ delimiters ∧ deref " foo(1".toList i ≠ NUL) ∧
      (deref " foo(1".toList e = NUL ∨ deref " foo(1".toList e ∈ delimiters) :=
  lex_maximal_run " foo(1".toList 0 ⟨0, 0⟩ [' '] "oo(1".toList 'f' (by decide) (by decide)
    (by decide) (by decide)


/-! ### Steps of the parser -/

theorem lex_current_word (buf : Buffer) (cur : Token) (ws t rest : List Char)
    (hbuf : buf.drop cur.end_ = ws ++ (t ++ rest)) (hws : ∀ c ∈ ws, c ∈ whitespace)
    (hne : t ≠ []) (ht : ∀ c ∈ t, c ∉ delimiters ∧ c ≠ NUL)
    (hrest : ∀ c, rest.head? = some c → c = NUL ∨ c ∈ delimiters) :
    lex_current buf cur =
      (ok, ⟨cur.end_ + ws.length, cur.end_ + ws.length + t.length⟩) := by
  simp [lex_current, lex_word buf cur.end_ cur ws t rest hbuf hws hne ht hrest]

theorem lex_current_delimiter (buf : Buffer) (cur : Token) (ws rest : List Char) (d : Char)
    (hbuf : buf.drop cur.end_ = ws ++ d :: rest) (hws : ∀ c ∈ ws, c ∈ whitespace)
    (hd : d ∈ [',', '(', ')', ':', '+']) :
    lex_current buf cur = (ok, ⟨cur.end_ + ws.length, cur.end_ + ws.length + 1⟩) := by
  simp [lex_current, (lex_delimiter_token buf cur.end_ cur ws rest d hbuf hws hd).1]

theorem lex_current_end (buf : Buffer) (cur : Token) (ws rest : List Char)
    (hbuf : buf.drop cur.end_ = ws ++ rest) (hws : ∀ c ∈ ws, c ∈ whitespace)
    (hrest : ∀ c, rest.head? = some c → c = NUL) :
    lex_current buf cur = (ok, ⟨cur.end_ + ws.length, cur.end_ + ws.length⟩) := by
  have h2 : ∀ c, rest.head? = some c → c ∉ whitespace := fun c hc =>
    (hrest c hc) ▸ NUL_not_mem_whitespace
  simp [lex_current, lex_view buf cur.end_ cur ws rest hbuf hws h2, token_span_end rest hrest]

theorem token_equalp_loop_self (buf : Buffer) (t rest : List Char) (b : Nat)
    (hbuf : buf.drop b = t ++ rest) : token_equalp_loop buf t b (b + t.length) = 1 := by
  induction t generalizing b with
  | nil => rfl
  | cons c t ih =>
    have hd : deref buf b = c := by
      have := deref_add buf b 0
      rw [Nat.add_zero, hbuf] at this
      simpa using this
    have hnext : buf.drop (b + 1) = t ++ rest := by
      rw [← List.drop_drop, hbuf]; rfl
    have := ih (b + 1) hnext
    rw [show b + (c :: t).length = b + 1 + t.length by simp; omega]
    simp only [token_equalp_loop, hd, bne_self_eq_false, Bool.false_eq_true, if_false, this]
    simp

theorem token_equalp_self (buf : Buffer) (t rest : List Char) (tok : Token)
    (hbuf : buf.drop tok.beginning = t ++ rest) (hend : tok.end_ = tok.beginning + t.length) :
    token_equalp buf (some t) (some tok) = 1 := by
  simp [token_equalp, hend, token_equalp_loop_self buf t rest tok.beginning hbuf]

theorem strtoll_no_conversion (c : Char) (s : List Char) (h1 : isspace c = false)
    (h2 : c ≠ '-') (h3 : c ≠ '+') (h4 : isdigit c = false) : strtoll (c :: s) = (0, 0) := by
  simp [strtoll, List.takeWhile_cons, h1, h2, h3, h4]

theorem node_print_leaf (fuel : Nat) (type : NodeType) (value : NodeValue) (next_child : NodePtr)
    (indent_level : Nat) :
    node_print (fuel + 1) (NodePtr.node type value NodePtr.null next_child) indent_level
      = some () := by
  simp [node_print, node_print_children]


theorem parse_symbol_clean (buf : Buffer) (tok : Token) (n : Node) (t rest : List Char)
    (hbuf : buf.drop tok.beginning = t ++ rest) (hend : tok.end_ = tok.beginning + t.length)
    (ht : ∀ c ∈ t, c ∉ delimiters ∧ c ≠ NUL) :
    parse_symbol buf tok n =
      (ok, ⟨NodeType.NODE_TYPE_SYMBOL, NodeValue.symbol (some t), NodePtr.null, NodePtr.null⟩) := by
  have h1 : (buf.drop tok.beginning).take (tok.end_ - tok.beginning) = t := by
    rw [hbuf, hend, Nat.add_sub_cancel_left, List.take_left]
  have h2 : t.takeWhile (fun c => c != NUL) = t := by
    rw [List.takeWhile_eq_self_iff]
    intro c hc
    simpa using (ht c hc).2
  have h3 : valid_identifier t = 1 := by
    have : strpbrk_null t delimiters = true := by
      simp only [strpbrk_null, List.all_eq_true]
      intro c hc
      simpa using (ht c hc).1
    simp [valid_identifier, this]
  simp [parse_symbol, h1, h2, h3]

theorem parse_symbol_delimiter (buf : Buffer) (tok : Token) (n : Node) (d : Char)
    (rest : List Char) (hbuf : buf.drop tok.beginning = d :: rest)
    (hend : tok.end_ = tok.beginning + 1) (hd : d ∈ delimiters) :
    parse_symbol buf tok n =
      (⟨ErrorType.ERROR_TODO, some ("Invalid identifier: ".toList ++ [d])⟩,
        ⟨NodeType.NODE_TYPE_SYMBOL, NodeValue.symbol (some [d]), NodePtr.null, NodePtr.null⟩) := by
  have hn : d ≠ NUL := fun h => NUL_not_mem_delimiters (h ▸ hd)
  have h1 : (buf.drop tok.beginning).take (tok.end_ - tok.beginning) = [d] := by
    rw [hbuf, hend, Nat.add_sub_cancel_left]; rfl
  have h2 : [d].takeWhile (fun c => c != NUL) = [d] := by
    simp [List.takeWhile_cons, hn]
  have h3 : valid_identifier [d] = 0 := by
    simp [valid_identifier, strpbrk_null, hd]
  simp only [parse_symbol, h1, h2, h3, if_true]

theorem parse_integer_no_conversion (buf : Buffer) (tok : Token) (n : Node) (c : Char)
    (rest : List Char) (hbuf : buf.drop tok.beginning = c :: rest) (hc : c ≠ NUL)
    (h1 : isspace c = false) (h2 : c ≠ '-') (h3 : c ≠ '+') (h4 : isdigit c = false) :
    (parse_integer buf (some tok) (some n)).1 = 0 := by
  have hd : deref buf tok.beginning = c := by
    have := deref_add buf tok.beginning 0
    rw [Nat.add_zero, hbuf] at this
    simpa using this
  have hz : c ≠ '0' := by
    intro h; subst h; revert h4; decide
  have hs : cstr buf tok.beginning = c :: rest.takeWhile (fun c => c != NUL) := by
    simp [cstr, hbuf, List.takeWhile_cons, hc]
  simp [parse_integer, hd, hz, hs, strtoll_no_conversion c _ h1 h2 h3 h4]

/-- The declaration branch when every expected token is there. -/
theorem parse_expr_body_declaration (buf : Buffer) (err : Error) (cur t1 t2 t3 : Token)
    (result : Node)
    (hlen : cur.end_ - cur.beginning ≠ 0)
    (hint : (parse_integer buf (some cur) (some result)).1 = 0)
    (hlet : token_equalp buf (some "let".toList) (some cur) = 1)
    (hl1 : lex_current buf cur = (ok, t1))
    (hsym : ∀ n, (parse_symbol buf t1 n).1 = ok)
    (hl2 : lex_current buf t1 = (ok, t2))
    (hlen2 : t2.end_ - t2.beginning ≠ 0)
    (hcolon : token_equalp buf (some ":".toList) (some t2) = 1)
    (hl3 : lex_current buf t2 = (ok, t3))
    (hlen3 : t3.end_ - t3.beginning ≠ 0)
    (hty : token_equalp buf (some "integer".toList) (some t3) = 1) :
    parse_expr_body buf err cur result =
      Flow.ret ok t3.end_
        ⟨NodeType.NODE_TYPE_VARIABLE_DECLARATION, NodeValue.indeterminate,
          NodePtr.null, NodePtr.null⟩ := by
  simp only [String.toList] at hlet hcolon hty
  simp [parse_expr_body, hlen, hint, hlet, hl1, hsym, hl2, hlen2, hcolon, hl3, hlen3, hty, ok]


theorem drop_of_eq_append (pre : List Char) {buf suf : List Char} {n : Nat} (h : buf = pre ++ suf)
    (hn : pre.length = n) : buf.drop n = suf := by
  subst h; exact List.drop_left' hn

theorem letter_not_number (c : Char) (h : c ∈ ['l', 'i', ':', '(', ',', ')']) :
    c ≠ NUL ∧ isspace c = false ∧ c ≠ '-' ∧ c ≠ '+' ∧ isdigit c = false := by
  simp only [List.mem_cons, List.mem_singleton, List.not_mem_nil, or_false] at h
  rcases h with h | h | h | h | h | h <;> subst h <;> decide

/-- C1: the source `let x : integer`, for any non-empty identifier `x` without a delimiter,
parses to a `VariableDeclaration` node without children or sibling and no error. -/
theorem parse_expr_let_declaration (x : List Char) (hne : x ≠ [])
    (hx : ∀ c ∈ x, c ∉ delimiters ∧ c ≠ NUL) (fuel end_ : Nat) (result : Node) :
    parse_expr (fuel + 1) ("let ".toList ++ x ++ " : integer".toList) 0 end_ result =
      some ⟨ok, x.length + 14,
        ⟨NodeType.NODE_TYPE_VARIABLE_DECLARATION, NodeValue.indeterminate,
          NodePtr.null, NodePtr.null⟩⟩ := by
  generalize hbuf : "let ".toList ++ x ++ " : integer".toList = buf
  have hb0 : buf = [] ++ (['l', 'e', 't'] ++ (' ' :: (x ++ " : integer".toList))) := by
    rw [← hbuf]; simp
  have hb3 : buf.drop 3 = [' '] ++ (x ++ " : integer".toList) := by
    rw [hb0]; rfl
  have hb4 : buf.drop 4 = x ++ " : integer".toList := by
    rw [hb0]; rfl
  have hbx : buf.drop (4 + x.length) = [' '] ++ ':' :: " integer".toList := by
    apply drop_of_eq_append ("let ".toList ++ x)
    · rw [← hbuf]; simp
    · simp; omega
  have hbc : buf.drop (4 + x.length + 1) = ':' :: " integer".toList := by
    apply drop_of_eq_append ("let ".toList ++ x ++ [' '])
    · rw [← hbuf]; simp
    · simp; omega
  have hbd : buf.drop (4 + x.length + 1 + 1) = [' '] ++ ("integer".toList ++ []) := by
    apply drop_of_eq_append ("let ".toList ++ x ++ [' ', ':'])
    · rw [← hbuf]; simp
    · simp; omega
  have hbe : buf.drop (4 + x.length + 1 + 1 + 1) = "integer".toList ++ [] := by
    apply drop_of_eq_append ("let ".toList ++ x ++ [' ', ':', ' '])
    · rw [← hbuf]; simp
    · simp; omega
  have hclean : ∀ s : List Char, (∀ c ∈ s, c ∈ "letinegr".toList) →
      ∀ c ∈ s, c ∉ delimiters ∧ c ≠ NUL := by
    intro s hs c hc
    have := hs c hc
    simp only [String.toList, List.mem_cons, List.mem_singleton, List.not_mem_nil, or_false] at this
    rcases this with h | h | h | h | h | h | h | h <;> subst h <;> decide
  have h1 : lex_current buf ⟨0, 0⟩ = (ok, ⟨0, 3⟩) := by
    have := lex_current_word buf ⟨0, 0⟩ [] ['l', 'e', 't'] (' ' :: (x ++ " : integer".toList))
      (by rw [hb0]; rfl) (by simp) (by simp) (hclean _ (by decide))
      (by intro c hc; simp at hc; subst hc; exact Or.inr (by decide))
    simpa using this
  have h2 : (parse_integer buf (some ⟨0, 3⟩) (some result)).1 = 0 := by
    obtain ⟨a1, a2, a3, a4, a5⟩ := letter_not_number 'l' (by decide)
    exact parse_integer_no_conversion buf ⟨0, 3⟩ result 'l' _ (by rw [hb0]; rfl) a1 a2 a3 a4 a5
  have h3 : token_equalp buf (some "let".toList) (some ⟨0, 3⟩) = 1 :=
    token_equalp_self buf _ _ ⟨0, 3⟩ (by rw [hb0]; rfl) (by rfl)
  have h4 : lex_current buf ⟨0, 3⟩ = (ok, ⟨4, 4 + x.length⟩) := by
    have := lex_current_word buf ⟨0, 3⟩ [' '] x " : integer".toList hb3 (by decide) hne hx
      (by intro c hc; simp at hc; subst hc; exact Or.inr (by decide))
    simpa using this
  have h5 : ∀ n, (parse_symbol buf ⟨4, 4 + x.length⟩ n).1 = ok := by
    intro n
    rw [parse_symbol_clean buf ⟨4, 4 + x.length⟩ n x _ hb4 rfl hx]
  have h6 : lex_current buf ⟨4, 4 + x.length⟩ = (ok, ⟨4 + x.length + 1, 4 + x.length + 1 + 1⟩) := by
    have := lex_current_delimiter buf ⟨4, 4 + x.length⟩ [' '] " integer".toList ':' hbx
      (by decide) (by decide)
    simpa using this
  have h7 : token_equalp buf (some ":".toList) (some ⟨4 + x.length + 1, 4 + x.length + 1 + 1⟩)
      = 1 :=
    token_equalp_self buf _ _ ⟨_, _⟩ hbc (by rfl)
  have h8 : lex_current buf ⟨4 + x.length + 1, 4 + x.length + 1 + 1⟩ =
      (ok, ⟨4 + x.length + 1 + 1 + 1, 4 + x.length + 1 + 1 + 1 + 7⟩) := by
    have := lex_current_word buf ⟨4 + x.length + 1, 4 + x.length + 1 + 1⟩ [' ']
      "integer".toList [] hbd (by decide) (by decide) (hclean _ (by decide)) (by simp)
    simpa using this
  have h9 : token_equalp buf (some "integer".toList)
      (some ⟨4 + x.length + 1 + 1 + 1, 4 + x.length + 1 + 1 + 1 + 7⟩) = 1 :=
    token_equalp_self buf _ _ ⟨_, _⟩ hbe (by rfl)
  have hbody := parse_expr_body_declaration buf ok ⟨0, 3⟩ _ _ _ result (by decide) h2 h3 h4 h5 h6
    (by simp) h7 h8 (by simp) h9
  simp only [parse_expr, parse_expr_loop, h1, hbody]
  simp [ok]
  omega

theorem parse_expr_let_declaration_witness :
    parse_expr (0 + 1) ("let ".toList ++ ['x'] ++ " : integer".toList) 0 0 Node.zeroed =
      some ⟨ok, ['x'].length + 14,
        ⟨NodeType.NODE_TYPE_VARIABLE_DECLARATION, NodeValue.indeterminate,
          NodePtr.null, NodePtr.null⟩⟩ :=
  parse_expr_let_declaration ['x'] (by decide) (by decide) 0 0 Node.zeroed

theorem isdigit_clean (c : Char) (h : isdigit c = true) :
    c ∉ delimiters ∧ c ≠ NUL ∧ isspace c = false ∧ c ≠ '-' ∧ c ≠ '+' := by
  refine ⟨?_, ?_, ?_, ?_, ?_⟩
  · intro hd
    rw [mem_delimiters_iff] at hd
    rcases hd with e | e | e | e | e | e | e | e <;> subst e <;> revert h <;> decide
  · intro e; subst e; revert h; decide
  · cases hs : isspace c with
    | false => rfl
    | true =>
      simp only [isspace, Bool.or_eq_true, beq_iff_eq] at hs
      rcases hs with ((((e | e) | e) | e) | e) | e <;> subst e <;> revert h <;> decide
  · intro e; subst e; revert h; decide
  · intro e; subst e; revert h; decide

theorem strtoll_digits (ds : List Char) (hne : ds ≠ []) (hd : ∀ c ∈ ds, isdigit c = true) :
    strtoll ds =
      (if LLONG_MAX < (digits_value ds : Int) then LLONG_MAX else (digits_value ds : Int),
        ds.length) := by
  cases ds with
  | nil => exact absurd rfl hne
  | cons c t =>
    obtain ⟨-, -, h3, h4, h5⟩ := isdigit_clean c (hd c (List.mem_cons_self _ _))
    have hall : (c :: t).takeWhile isdigit = c :: t := by
      rw [List.takeWhile_eq_self_iff]; exact hd
    have hws : (c :: t).takeWhile isspace = [] := by
      simp [List.takeWhile_cons, h3]
    simp [strtoll, hws, h4, h5, hall]

theorem parse_expr_body_end (buf : Buffer) (err : Error) (cur : Token) (result : Node)
    (hlen : cur.end_ - cur.beginning = 0) :
    parse_expr_body buf err cur result = Flow.brk err cur.end_ result := by
  simp [parse_expr_body, hlen]

/-- The integer branch: the literal is stored and the following token is scanned. -/
theorem parse_expr_body_integer (buf : Buffer) (err : Error) (cur t1 : Token)
    (result node : Node) (hlen : cur.end_ - cur.beginning ≠ 0)
    (hint : parse_integer buf (some cur) (some result) = (1, some node))
    (hl1 : lex_current buf cur = (ok, t1)) :
    parse_expr_body buf err cur result = Flow.next ok t1 t1.end_ node := by
  simp [parse_expr_body, hlen, hint, hl1, ok]

theorem parse_integer_digits (ds : List Char) (hd : ∀ c ∈ ds, isdigit c = true)
    (hv : ds = ['0'] ∨ (digits_value ds ≠ 0 ∧ (digits_value ds : Int) ≤ LLONG_MAX)) :
    parse_integer ds (some ⟨0, ds.length⟩) (some Node.zeroed) =
      (1, some ⟨NodeType.NODE_TYPE_INTEGER, NodeValue.integer (digits_value ds),
        NodePtr.null, NodePtr.null⟩) := by
  have hne : ds ≠ [] := by
    rintro rfl
    rcases hv with h | h
    · cases h
    · exact h.1 rfl
  have hcs : cstr ds 0 = ds := by
    simp only [cstr, List.drop_zero]
    rw [List.takeWhile_eq_self_iff]
    intro c hc
    simpa using (isdigit_clean c (hd c hc)).2.1
  by_cases hb : ds.length - 0 = 1 ∧ deref ds 0 = '0'
  · have hds : ds = ['0'] := by
      obtain ⟨h1, h2⟩ := hb
      match ds, h1, h2 with
      | [c], _, h2 => simp [deref] at h2; simp [h2]
    subst hds
    rfl
  · have hv2 : digits_value ds ≠ 0 ∧ (digits_value ds : Int) ≤ LLONG_MAX := by
      rcases hv with h | h
      · subst h; exact absurd ⟨rfl, rfl⟩ hb
      · exact h
    have hst : strtoll ds = ((digits_value ds : Int), ds.length) := by
      rw [strtoll_digits ds hne hd, if_neg (not_lt.2 hv2.2)]
    have hnz : (digits_value ds : Int) ≠ 0 := by exact_mod_cast hv2.1
    simp only [parse_integer, hb, if_false, hcs, hst]
    simp [hnz, Node.zeroed]

/-- C2: a source that is one run of decimal digits, either `0` or with a nonzero value
that fits a signed 64-bit integer, parses from a zeroed node to an `Integer` node
carrying that value, with no error. -/
theorem parse_expr_integer_literal (ds : List Char) (hd : ∀ c ∈ ds, isdigit c = true)
    (hv : ds = ['0'] ∨ (digits_value ds ≠ 0 ∧ (digits_value ds : Int) ≤ LLONG_MAX))
    (fuel end_ : Nat) :
    parse_expr (fuel + 2) ds 0 end_ Node.zeroed =
      some ⟨ok, ds.length,
        ⟨NodeType.NODE_TYPE_INTEGER, NodeValue.integer (digits_value ds),
          NodePtr.null, NodePtr.null⟩⟩ := by
  have hne : ds ≠ [] := by
    rintro rfl
    rcases hv with h | h
    · cases h
    · exact h.1 rfl
  have hclean : ∀ c ∈ ds, c ∉ delimiters ∧ c ≠ NUL := fun c hc =>
    ⟨(isdigit_clean c (hd c hc)).1, (isdigit_clean c (hd c hc)).2.1⟩
  have h1 : lex_current ds ⟨0, 0⟩ = (ok, ⟨0, ds.length⟩) := by
    have := lex_current_word ds ⟨0, 0⟩ [] ds [] (by simp) (by simp) hne hclean (by simp)
    simpa using this
  have h2 := parse_integer_digits ds hd hv
  have h3 : lex_current ds ⟨0, ds.length⟩ = (ok, ⟨ds.length, ds.length⟩) := by
    have := lex_current_end ds ⟨0, ds.length⟩ [] [] (by simp) (by simp) (by simp)
    simpa using this
  have h4 : lex_current ds ⟨ds.length, ds.length⟩ = (ok, ⟨ds.length, ds.length⟩) := by
    have := lex_current_end ds ⟨ds.length, ds.length⟩ [] [] (by simp) (by simp) (by simp)
    simpa using this
  have hlen : ds.length ≠ 0 := fun h => hne (List.length_eq_zero.1 h)
  have hb1 := parse_expr_body_integer ds ok ⟨0, ds.length⟩ _ Node.zeroed _ (by simpa using hlen)
    h2 h3
  have hb2 := fun r => parse_expr_body_end ds ok ⟨ds.length, ds.length⟩ r (by simp)
  simp only [parse_expr, parse_expr_loop, h1, hb1, h4, hb2]
  simp [ok, Node.addr, node_print, node_print_children]

theorem parse_expr_integer_literal_witness :
    parse_expr (0 + 2) "0".toList 0 0 Node.zeroed =
        some ⟨ok, 1, ⟨NodeType.NODE_TYPE_INTEGER, NodeValue.integer 0, NodePtr.null, NodePtr.null⟩⟩ ∧
      parse_expr (0 + 2) "42".toList 0 0 Node.zeroed =
        some ⟨ok, 2, ⟨NodeType.NODE_TYPE_INTEGER, NodeValue.integer 42, NodePtr.null, NodePtr.null⟩⟩ ∧
      parse_expr (0 + 2) "007".toList 0 0 Node.zeroed =
        some ⟨ok, 3, ⟨NodeType.NODE_TYPE_INTEGER, NodeValue.integer 7, NodePtr.null, NodePtr.null⟩⟩ :=
  ⟨parse_expr_integer_literal "0".toList (by decide) (by decide) 0 0,
    parse_expr_integer_literal "42".toList (by decide) (by decide) 0 0,
    parse_expr_integer_literal "007".toList (by decide) (by decide) 0 0⟩

/-- The declaration branch when the identifier is rejected. -/
theorem parse_expr_body_bad_identifier (buf : Buffer) (err e : Error) (cur t1 : Token)
    (result node : Node)
    (hlen : cur.end_ - cur.beginning ≠ 0)
    (hint : (parse_integer buf (some cur) (some result)).1 = 0)
    (hlet : token_equalp buf (some "let".toList) (some cur) = 1)
    (hl1 : lex_current buf cur = (ok, t1))
    (hsym : ∀ n, parse_symbol buf t1 n = (e, node))
    (he : e.type ≠ ErrorType.ERROR_NONE) :
    parse_expr_body buf err cur result = Flow.ret e t1.end_ node := by
  simp only [String.toList] at hlet
  simp [parse_expr_body, hlen, hint, hlet, hl1, hsym, he, ok]

/-- The declaration branch when the input ends after the identifier. -/
theorem parse_expr_body_no_colon (buf : Buffer) (err : Error) (cur t1 t2 : Token)
    (result node : Node)
    (hlen : cur.end_ - cur.beginning ≠ 0)
    (hint : (parse_integer buf (some cur) (some result)).1 = 0)
    (hlet : token_equalp buf (some "let".toList) (some cur) = 1)
    (hl1 : lex_current buf cur = (ok, t1))
    (hsym : ∀ n, parse_symbol buf t1 n = (ok, node))
    (hl2 : lex_current buf t1 = (ok, t2))
    (hlen2 : t2.end_ - t2.beginning = 0) :
    parse_expr_body buf err cur result = Flow.brk ok t2.end_ node := by
  simp only [String.toList] at hlet
  simp [parse_expr_body, hlen, hint, hlet, hl1, hsym, hl2, hlen2, ok]

/-- The declaration branch when the input ends after the colon. -/
theorem parse_expr_body_no_type (buf : Buffer) (err : Error) (cur t1 t2 t3 : Token)
    (result node : Node)
    (hlen : cur.end_ - cur.beginning ≠ 0)
    (hint : (parse_integer buf (some cur) (some result)).1 = 0)
    (hlet : token_equalp buf (some "let".toList) (some cur) = 1)
    (hl1 : lex_current buf cur = (ok, t1))
    (hsym : ∀ n, parse_symbol buf t1 n = (ok, node))
    (hl2 : lex_current buf t1 = (ok, t2))
    (hlen2 : t2.end_ - t2.beginning ≠ 0)
    (hcolon : token_equalp buf (some ":".toList) (some t2) = 1)
    (hl3 : lex_current buf t2 = (ok, t3))
    (hlen3 : t3.end_ - t3.beginning = 0) :
    parse_expr_body buf err cur result = Flow.brk ok t3.end_ node := by
  simp only [String.toList] at hlet hcolon
  simp [parse_expr_body, hlen, hint, hlet, hl1, hsym, hl2, hlen2, hcolon, hl3, hlen3, ok]

theorem let_clean : ∀ c ∈ ['l', 'e', 't'], c ∉ delimiters ∧ c ≠ NUL := by decide

theorem punctuation_subset_delimiters {d : Char} (hd : d ∈ [',', '(', ')', ':', '+']) :
    d ∈ delimiters := by
  rw [mem_delimiters_iff]; simp at hd; tauto

/-- C4, as the code has it: when the first token is `let` and the token after it is one
of the delimiters `,` `(` `)` `:` `+`, `parse_expr` returns the `Todo` error that
symbol construction raises for the delimiter, and the result is the `Symbol` node
made from it. -/
theorem parse_expr_let_delimiter (ws0 ws1 rest : List Char) (d : Char)
    (hws0 : ∀ c ∈ ws0, c ∈ whitespace) (hws1 : ∀ c ∈ ws1, c ∈ whitespace)
    (hd : d ∈ [',', '(', ')', ':', '+']) (fuel end_ : Nat) (result : Node) :
    parse_expr (fuel + 1) (ws0 ++ "let".toList ++ ws1 ++ d :: rest) 0 end_ result =
      some ⟨⟨ErrorType.ERROR_TODO, some ("Invalid identifier: ".toList ++ [d])⟩,
        ws0.length + 3 + ws1.length + 1,
        ⟨NodeType.NODE_TYPE_SYMBOL, NodeValue.symbol (some [d]), NodePtr.null, NodePtr.null⟩⟩ := by
  generalize hbuf : ws0 ++ "let".toList ++ ws1 ++ d :: rest = buf
  have hdel := punctuation_subset_delimiters hd
  have hb0 : buf.drop 0 = ws0 ++ (['l', 'e', 't'] ++ (ws1 ++ d :: rest)) := by
    rw [← hbuf]; simp
  have hb1 : buf.drop (0 + ws0.length) = ['l', 'e', 't'] ++ (ws1 ++ d :: rest) := by
    apply drop_of_eq_append (ws0)
    · rw [← hbuf]; simp
    · simp
  have hb2 : buf.drop (0 + ws0.length + 3) = ws1 ++ d :: rest := by
    apply drop_of_eq_append (ws0 ++ "let".toList)
    · rw [← hbuf]; simp
    · simp
  have hb3 : buf.drop (0 + ws0.length + 3 + ws1.length) = d :: rest := by
    apply drop_of_eq_append (ws0 ++ "let".toList ++ ws1)
    · rw [← hbuf]
    · simp; omega
  have hhead : ∀ c, (ws1 ++ d :: rest).head? = some c → c = NUL ∨ c ∈ delimiters := by
    intro c hc
    cases ws1 with
    | nil => simp at hc; subst hc; exact Or.inr hdel
    | cons a ws1 =>
      simp at hc; subst hc
      exact Or.inr (whitespace_subset_delimiters (hws1 a (List.mem_cons_self _ _)))
  have h1 : lex_current buf ⟨0, 0⟩ = (ok, ⟨0 + ws0.length, 0 + ws0.length + 3⟩) :=
    lex_current_word buf ⟨0, 0⟩ ws0 ['l', 'e', 't'] _ hb0 hws0 (by simp) let_clean hhead
  have h2 : ∀ r, (parse_integer buf (some ⟨0 + ws0.length, 0 + ws0.length + 3⟩) (some r)).1 = 0 := by
    intro r
    obtain ⟨a1, a2, a3, a4, a5⟩ := letter_not_number 'l' (by decide)
    exact parse_integer_no_conversion buf ⟨_, _⟩ r 'l' _ hb1 a1 a2 a3 a4 a5
  have h3 : token_equalp buf (some "let".toList) (some ⟨0 + ws0.length, 0 + ws0.length + 3⟩) = 1 :=
    token_equalp_self buf _ _ ⟨_, _⟩ hb1 (by rfl)
  have h4 : lex_current buf ⟨0 + ws0.length, 0 + ws0.length + 3⟩ =
      (ok, ⟨0 + ws0.length + 3 + ws1.length, 0 + ws0.length + 3 + ws1.length + 1⟩) :=
    lex_current_delimiter buf ⟨_, _⟩ ws1 rest d hb2 hws1 hd
  have h5 := fun n => parse_symbol_delimiter buf
    ⟨0 + ws0.length + 3 + ws1.length, 0 + ws0.length + 3 + ws1.length + 1⟩ n d rest hb3 rfl hdel
  have hbody := parse_expr_body_bad_identifier buf ok _ ⟨_, _⟩ _ result _ (by simp) (h2 result)
    h3 h4 h5 (by simp)
  simp only [parse_expr, parse_expr_loop, h1, hbody]
  simp [ok]

theorem parse_expr_let_delimiter_witness :
    parse_expr (0 + 1) ([' '] ++ "let".toList ++ [] ++ '(' :: "x".toList) 0 0 Node.zeroed =
      some ⟨⟨ErrorType.ERROR_TODO, some ("Invalid identifier: ".toList ++ ['('])⟩,
        [' '].length + 3 + ([] : List Char).length + 1,
        ⟨NodeType.NODE_TYPE_SYMBOL, NodeValue.symbol (some ['(']), NodePtr.null, NodePtr.null⟩⟩ :=
  parse_expr_let_delimiter [' '] [] "x".toList '(' (by decide) (by decide) (by decide) 0 0
    Node.zeroed

/-- C4, against the claim as stated: on `let : integer` the returned error is of kind
`Todo`, not `Syntax`. -/
theorem parse_expr_let_colon_is_todo :
    parse_expr 8 "let : integer".toList 0 0 Node.zeroed =
        some ⟨⟨ErrorType.ERROR_TODO, some "Invalid identifier: :".toList⟩, 5,
          ⟨NodeType.NODE_TYPE_SYMBOL, NodeValue.symbol (some [':']), NodePtr.null, NodePtr.null⟩⟩ ∧
      ErrorType.ERROR_TODO ≠ ErrorType.ERROR_SYNTAX := by
  decide

/-- C5, as the code has it: after `let` and a valid identifier, when the input ends (the
next token is missing), or the next token is `:` and the input ends after it, `parse_expr`
leaves the loop by `break` and returns no error; the result is the identifier's `Symbol`
node and everything up to the terminator is consumed. -/
theorem parse_expr_let_truncated (x ws1 tail : List Char) (hne : x ≠ [])
    (hx : ∀ c ∈ x, c ∉ delimiters ∧ c ≠ NUL) (hws1 : ∀ c ∈ ws1, c ∈ whitespace)
    (htail : tail = [] ∨ ∃ ws2, (∀ c ∈ ws2, c ∈ whitespace) ∧ tail = ':' :: ws2)
    (fuel end_ : Nat) (result : Node) :
    parse_expr (fuel + 1) ("let ".toList ++ x ++ ws1 ++ tail) 0 end_ result =
      some ⟨ok, ("let ".toList ++ x ++ ws1 ++ tail).length,
        ⟨NodeType.NODE_TYPE_SYMBOL, NodeValue.symbol (some x), NodePtr.null, NodePtr.null⟩⟩ := by
  generalize hbuf : "let ".toList ++ x ++ ws1 ++ tail = buf
  have hb0 : buf = [] ++ (['l', 'e', 't'] ++ (' ' :: (x ++ (ws1 ++ tail)))) := by
    rw [← hbuf]; simp
  have hb3 : buf.drop 3 = [' '] ++ (x ++ (ws1 ++ tail)) := by
    rw [hb0]; rfl
  have hb4 : buf.drop 4 = x ++ (ws1 ++ tail) := by
    rw [hb0]; rfl
  have hbx : buf.drop (4 + x.length) = ws1 ++ tail := by
    apply drop_of_eq_append ("let ".toList ++ x)
    · rw [← hbuf]; simp
    · simp; omega
  have hhead : ∀ c, (ws1 ++ tail).head? = some c → c = NUL ∨ c ∈ delimiters := by
    intro c hc
    cases ws1 with
    | nil =>
      rcases htail with h | ⟨ws2, -, h⟩
      · subst h; simp at hc
      · subst h; simp at hc; subst hc; exact Or.inr (by decide)
    | cons a ws1 =>
      simp at hc; subst hc
      exact Or.inr (whitespace_subset_delimiters (hws1 a (List.mem_cons_self _ _)))
  have h1 : lex_current buf ⟨0, 0⟩ = (ok, ⟨0, 3⟩) := by
    have := lex_current_word buf ⟨0, 0⟩ [] ['l', 'e', 't'] (' ' :: (x ++ (ws1 ++ tail)))
      (by rw [hb0]; rfl) (by simp) (by simp) let_clean
      (by intro c hc; simp at hc; subst hc; exact Or.inr (by decide))
    simpa using this
  have h2 : (parse_integer buf (some ⟨0, 3⟩) (some result)).1 = 0 := by
    obtain ⟨a1, a2, a3, a4, a5⟩ := letter_not_number 'l' (by decide)
    exact parse_integer_no_conversion buf ⟨0, 3⟩ result 'l' _ (by rw [hb0]; rfl) a1 a2 a3 a4 a5
  have h3 : token_equalp buf (some "let".toList) (some ⟨0, 3⟩) = 1 :=
    token_equalp_self buf _ _ ⟨0, 3⟩ (by rw [hb0]; rfl) (by rfl)
  have h4 : lex_current buf ⟨0, 3⟩ = (ok, ⟨4, 4 + x.length⟩) := by
    have := lex_current_word buf ⟨0, 3⟩ [' '] x (ws1 ++ tail) hb3 (by decide) hne hx hhead
    simpa using this
  have h5 := fun n => parse_symbol_clean buf ⟨4, 4 + x.length⟩ n x _ hb4 rfl hx
  rcases htail with h | ⟨ws2, hws2, h⟩
  · subst h
    have h6 : lex_current buf ⟨4, 4 + x.length⟩ =
        (ok, ⟨4 + x.length + ws1.length, 4 + x.length + ws1.length⟩) :=
      lex_current_end buf ⟨4, 4 + x.length⟩ ws1 [] hbx hws1 (by simp)
    have hbody := parse_expr_body_no_colon buf ok ⟨0, 3⟩ _ _ result _ (by decide) h2 h3 h4 h5 h6
      (by simp)
    simp only [parse_expr, parse_expr_loop, h1, hbody]
    simp [ok, ← hbuf]
    omega
  · subst h
    have hbc : buf.drop (4 + x.length + ws1.length) = ':' :: ws2 := by
      apply drop_of_eq_append ("let ".toList ++ x ++ ws1)
      · rw [← hbuf]
      · simp; omega
    have hbe : buf.drop (4 + x.length + ws1.length + 1) = ws2 ++ [] := by
      apply drop_of_eq_append ("let ".toList ++ x ++ ws1 ++ [':'])
      · rw [← hbuf]; simp
      · simp; omega
    have h6 : lex_current buf ⟨4, 4 + x.length⟩ =
        (ok, ⟨4 + x.length + ws1.length, 4 + x.length + ws1.length + 1⟩) :=
      lex_current_delimiter buf ⟨4, 4 + x.length⟩ ws1 ws2 ':' hbx hws1 (by decide)
    have h7 : token_equalp buf (some ":".toList)
        (some ⟨4 + x.length + ws1.length, 4 + x.length + ws1.length + 1⟩) = 1 :=
      token_equalp_self buf [':'] ws2 ⟨_, _⟩ hbc (by rfl)
    have h8 : lex_current buf ⟨4 + x.length + ws1.length, 4 + x.length + ws1.length + 1⟩ =
        (ok, ⟨4 + x.length + ws1.length + 1 + ws2.length,
          4 + x.length + ws1.length + 1 + ws2.length⟩) :=
      lex_current_end buf ⟨_, _⟩ ws2 [] hbe hws2 (by simp)
    have hbody := parse_expr_body_no_type buf ok ⟨0, 3⟩ _ _ _ result _ (by decide) h2 h3 h4 h5 h6
      (by simp) h7 h8 (by simp)
    simp only [parse_expr, parse_expr_loop, h1, hbody]
    simp [ok, ← hbuf]
    omega

theorem parse_expr_let_truncated_witness :
    parse_expr (0 + 1) ("let ".toList ++ ['x'] ++ [' '] ++ [':', ' ']) 0 0 Node.zeroed =
      some ⟨ok, ("let ".toList ++ ['x'] ++ [' '] ++ [':', ' ']).length,
        ⟨NodeType.NODE_TYPE_SYMBOL, NodeValue.symbol (some ['x']), NodePtr.null, NodePtr.null⟩⟩ :=
  parse_expr_let_truncated ['x'] [' '] [':', ' '] (by decide) (by decide) (by decide)
    (Or.inr ⟨[' '], by decide, rfl⟩) 0 0 Node.zeroed

/-- C5, against the claim as stated: on `let x`, where the token after the identifier is
missing, `parse_expr` returns the error kind `None`, not `Syntax`. -/
theorem parse_expr_let_x_is_none :
    parse_expr 8 "let x".toList 0 0 Node.zeroed =
        some ⟨⟨ErrorType.ERROR_NONE, none⟩, 5,
          ⟨NodeType.NODE_TYPE_SYMBOL, NodeValue.symbol (some ['x']), NodePtr.null, NodePtr.null⟩⟩ ∧
      ErrorType.ERROR_NONE ≠ ErrorType.ERROR_SYNTAX := by
  decide

/-- C3, at the failing input `letter`: the lexeme is not an integer and is not `let`, yet
`token_equalp` accepts it as `let`, the declaration branch runs, and the result is a
`Symbol` node with the empty identifier instead of `letter`. -/
theorem parse_expr_letter :
    (parse_integer "letter".toList (some ⟨0, 6⟩) (some Node.zeroed)).1 = 0 ∧
      "letter".toList ≠ "let".toList ∧
      token_equalp "letter".toList (some "let".toList) (some ⟨0, 6⟩) = 1 ∧
      parse_expr 8 "letter".toList 0 0 Node.zeroed =
        some ⟨ok, 6,
          ⟨NodeType.NODE_TYPE_SYMBOL, NodeValue.symbol (some []), NodePtr.null, NodePtr.null⟩⟩ := by
  decide

/-- C6, at the failing inputs `(` and `let x integer`: the loop body ends with the error
`Todo`, respectively `Syntax`, in `err`, and `parse_expr` still scans on and returns
the error kind `None`. -/
theorem parse_expr_drops_error :
    parse_expr_body "(".toList ok ⟨0, 1⟩ Node.zeroed =
        Flow.next ⟨ErrorType.ERROR_TODO, some "Invalid identifier: (".toList⟩ ⟨0, 1⟩ 1
          ⟨NodeType.NODE_TYPE_SYMBOL, NodeValue.symbol (some ['(']), NodePtr.null, NodePtr.null⟩ ∧
      parse_expr 8 "(".toList 0 0 Node.zeroed =
        some ⟨ok, 1,
          ⟨NodeType.NODE_TYPE_SYMBOL, NodeValue.symbol (some ['(']), NodePtr.null, NodePtr.null⟩⟩ ∧
      parse_expr_body "let x integer".toList ok ⟨0, 3⟩ Node.zeroed =
        Flow.next ⟨ErrorType.ERROR_SYNTAX, some "Unexpected token".toList⟩ ⟨6, 13⟩ 13
          ⟨NodeType.NODE_TYPE_SYMBOL, NodeValue.symbol (some ['x']), NodePtr.null, NodePtr.null⟩ ∧
      parse_expr 8 "let x integer".toList 0 0 Node.zeroed =
        some ⟨ok, 13,
          ⟨NodeType.NODE_TYPE_SYMBOL, NodeValue.symbol (some ['x']), NodePtr.null, NodePtr.null⟩⟩ := by
  decide

/-- C10, at the failing input: the string `let` against the one-byte token `l`, and against
the six-byte token `letter`; `token_equalp` returns 1 for both although the bytes differ
in length. -/
theorem token_equalp_accepts_prefix :
    token_equalp "l".toList (some "let".toList) (some ⟨0, 1⟩) = 1 ∧
      token_equalp "letter".toList (some "let".toList) (some ⟨0, 6⟩) = 1 := by
  decide

/-! ### Keywords, symbols, comparison and environments -/

/-- C11, at the failing inputs: `let x : int`, `lets x : integers` and `l x : i` all parse
to a `VariableDeclaration` node without error, although the keyword is not `let` or
the type is not `integer`. -/
theorem parse_expr_declaration_by_prefix :
    parse_expr 8 "let x : int".toList 0 0 Node.zeroed =
        some ⟨ok, 11, ⟨NodeType.NODE_TYPE_VARIABLE_DECLARATION, NodeValue.indeterminate,
          NodePtr.null, NodePtr.null⟩⟩ ∧
      parse_expr 8 "lets x : integers".toList 0 0 Node.zeroed =
        some ⟨ok, 17, ⟨NodeType.NODE_TYPE_VARIABLE_DECLARATION, NodeValue.indeterminate,
          NodePtr.null, NodePtr.null⟩⟩ ∧
      parse_expr 8 "l x : i".toList 0 0 Node.zeroed =
        some ⟨ok, 7, ⟨NodeType.NODE_TYPE_VARIABLE_DECLARATION, NodeValue.indeterminate,
          NodePtr.null, NodePtr.null⟩⟩ := by
  decide

/-- C12, at the failing inputs: `(` returns no error and a `Symbol` node whose identifier
is the delimiter `(`; `let` returns no error and a `Symbol` node whose identifier is
empty. -/
theorem parse_expr_symbol_with_delimiter :
    parse_expr 8 "(".toList 0 0 Node.zeroed =
        some ⟨ok, 1,
          ⟨NodeType.NODE_TYPE_SYMBOL, NodeValue.symbol (some ['(']), NodePtr.null, NodePtr.null⟩⟩ ∧
      '(' ∈ delimiters ∧
      parse_expr 8 "let".toList 0 0 Node.zeroed =
        some ⟨ok, 3,
          ⟨NodeType.NODE_TYPE_SYMBOL, NodeValue.symbol (some []), NodePtr.null, NodePtr.null⟩⟩ := by
  decide

/-- C13, at the failing input, for any parent, identifier and values: in a fresh frame,
after one `environment_set`, and after two, `environment_get` returns the `None`-kind
node, because the caller's frame still has no binding; on the callee's own copy of the
frame the lookup would not return at all. -/
theorem environment_get_after_set (parent : EnvironmentPtr) (id value value2 : Node) :
    environment_get (environment_set (environment_create parent) id value) id =
        some ⟨NodeType.NODE_TYPE_NONE, NodeValue.integer 0, NodePtr.null, NodePtr.null⟩ ∧
      environment_get
          (environment_set (environment_set (environment_create parent) id value) id value2) id =
        some ⟨NodeType.NODE_TYPE_NONE, NodeValue.integer 0, NodePtr.null, NodePtr.null⟩ ∧
      environment_get (environment_set_local (environment_create parent) id value) id = none := by
  refine ⟨rfl, rfl, ?_⟩
  simp [environment_get, environment_set_local, environment_create, environment_get_loop,
    node_cmp, NODE_TYPE_MAX]

/-- The comparison that follows the assertion in `node_cmp` is the partial equality of
the specification. -/
theorem node_cmp_body_spec (a b : Node) :
    (a.type ≠ b.type → node_cmp_body a b = some 0) ∧
      (a.type = NodeType.NODE_TYPE_NONE → b.type = NodeType.NODE_TYPE_NONE →
        node_cmp_body a b = some 1) ∧
      (∀ x y, a.type = NodeType.NODE_TYPE_INTEGER → b.type = NodeType.NODE_TYPE_INTEGER →
        a.value = NodeValue.integer x → b.value = NodeValue.integer y →
        node_cmp_body a b = some (if x = y then 1 else 0)) ∧
      (a.type = b.type → a.type ≠ NodeType.NODE_TYPE_NONE →
        a.type ≠ NodeType.NODE_TYPE_INTEGER → node_cmp_body a b = some 1) := by
  refine ⟨?_, ?_, ?_, ?_⟩
  · intro h; simp [node_cmp_body, h]
  · intro h1 h2; simp [node_cmp_body, h1, h2]
  · intro x y h1 h2 h3 h4
    by_cases hxy : x = y <;> simp [node_cmp_body, h1, h2, h3, h4, NodeValue.as_integer, hxy]
  · intro h1 h2 h3
    obtain ⟨ta, va, ca, na⟩ := a
    obtain ⟨tb, vb, cb, nb⟩ := b
    simp only at h1 h2 h3
    subst h1
    cases ta <;> simp_all [node_cmp_body]

/-- C14, at the failing input: two present `None`-kind nodes.  The comparison after the
assertion gives 1, and the absent cases are as specified, but the call on two present
nodes stops at the assertion and returns nothing. -/
theorem node_cmp_present_nodes :
    node_cmp (some Node.zeroed) (some Node.zeroed) = none ∧
      node_cmp_body Node.zeroed Node.zeroed = some 1 ∧
      node_cmp none none = some 1 ∧
      node_cmp none (some Node.zeroed) = some 0 ∧
      node_cmp (some Node.zeroed) none = some 0 := by
  decide

/-- C19, against the claim: `NODE_TYPE_MAX` is 8, the assertion `NODE_TYPE_MAX == 3` fails,
and `node_cmp` on two present nodes aborts instead of returning a result. -/
theorem node_cmp_assertion_fails (a b : Node) :
    NODE_TYPE_MAX = 8 ∧ NODE_TYPE_MAX ≠ 3 ∧ node_cmp (some a) (some b) = none := by
  refine ⟨rfl, by decide, ?_⟩
  simp [node_cmp, NODE_TYPE_MAX]

/-- C15: for a token whose text is not the single character `0`, `parse_integer` returns 1
exactly when `strtoll` yields a nonzero value and stops at the token's end, and then the
node is an `Integer` with that value; otherwise it returns 0 and the node keeps its kind. -/
theorem parse_integer_spec (buf : Buffer) (tok : Token) (node : Node)
    (h : ¬ (tok.end_ - tok.beginning = 1 ∧ deref buf tok.beginning = '0')) :
    ((parse_integer buf (some tok) (some node)).1 = 1 ↔
        ((strtoll (cstr buf tok.beginning)).1 ≠ 0 ∧
          tok.beginning + (strtoll (cstr buf tok.beginning)).2 = tok.end_)) ∧
      (((strtoll (cstr buf tok.beginning)).1 ≠ 0 ∧
          tok.beginning + (strtoll (cstr buf tok.beginning)).2 = tok.end_) →
        parse_integer buf (some tok) (some node) =
          (1, some { node with
            type := NodeType.NODE_TYPE_INTEGER,
            value := NodeValue.integer (strtoll (cstr buf tok.beginning)).1 })) ∧
      (¬ ((strtoll (cstr buf tok.beginning)).1 ≠ 0 ∧
          tok.beginning + (strtoll (cstr buf tok.beginning)).2 = tok.end_) →
        (parse_integer buf (some tok) (some node)).1 = 0 ∧
          (parse_integer buf (some tok) (some node)).2.map (fun n => n.type) = some node.type) := by
  by_cases hv : (strtoll (cstr buf tok.beginning)).1 = 0
  · simp [parse_integer, h, hv]
  · by_cases he : tok.beginning + (strtoll (cstr buf tok.beginning)).2 = tok.end_
    · simp [parse_integer, h, hv, he]
    · simp [parse_integer, h, hv, he]

theorem parse_integer_spec_witness :
    ((parse_integer "12abc".toList (some ⟨0, 5⟩) (some Node.zeroed)).1 = 1 ↔
        ((strtoll (cstr "12abc".toList 0)).1 ≠ 0 ∧
          0 + (strtoll (cstr "12abc".toList 0)).2 = 5)) ∧
      (((strtoll (cstr "12abc".toList 0)).1 ≠ 0 ∧
          0 + (strtoll (cstr "12abc".toList 0)).2 = 5) →
        parse_integer "12abc".toList (some ⟨0, 5⟩) (some Node.zeroed) =
          (1, some { Node.zeroed with
            type := NodeType.NODE_TYPE_INTEGER,
            value := NodeValue.integer (strtoll (cstr "12abc".toList 0)).1 })) ∧
      (¬ ((strtoll (cstr "12abc".toList 0)).1 ≠ 0 ∧
          0 + (strtoll (cstr "12abc".toList 0)).2 = 5) →
        (parse_integer "12abc".toList (some ⟨0, 5⟩) (some Node.zeroed)).1 = 0 ∧
          (parse_integer "12abc".toList (some ⟨0, 5⟩) (some Node.zeroed)).2.map (fun n => n.type)
            = some Node.zeroed.type) :=
  parse_integer_spec "12abc".toList ⟨0, 5⟩ Node.zeroed (by decide)

/-- C16: `valid_identifier` returns 1 exactly when the text holds no delimiter character,
and 0 otherwise; the empty text is accepted. -/
theorem valid_identifier_iff (text : List Char) :
    (valid_identifier text = 1 ↔ ∀ c ∈ text, c ∉ delimiters) ∧
      (valid_identifier text = 0 ↔ ∃ c ∈ text, c ∈ delimiters) ∧
      valid_identifier [] = 1 := by
  refine ⟨?_, ?_, by decide⟩
  · by_cases h : strpbrk_null text delimiters = true
    · have h2 := h
      simp only [strpbrk_null, List.all_eq_true] at h2
      simp only [valid_identifier, h, if_true, true_iff]
      intro c hc
      simpa using h2 c hc
    · have h2 := h
      simp only [strpbrk_null, List.all_eq_true, not_forall] at h2
      obtain ⟨c, hc, hcd⟩ := h2
      simp only [valid_identifier, h]
      simp only [Bool.false_eq_true, if_false, zero_ne_one, false_iff, not_forall]
      exact ⟨c, hc, by simpa using hcd⟩
  · by_cases h : strpbrk_null text delimiters = true
    · have h2 := h
      simp only [strpbrk_null, List.all_eq_true] at h2
      simp only [valid_identifier, h, if_true, one_ne_zero, false_iff, not_exists, not_and]
      intro c hc
      simpa using h2 c hc
    · have h2 := h
      simp only [strpbrk_null, List.all_eq_true, not_forall] at h2
      obtain ⟨c, hc, hcd⟩ := h2
      simp only [valid_identifier, h]
      simp only [Bool.false_eq_true, if_false, true_iff]
      exact ⟨c, hc, by simpa using hcd⟩

/-! ### Bounds on the scan position -/

theorem takeWhile_drop_of_le (p : Char → Bool) (l : List Char) (k : Nat)
    (hk : k ≤ (l.takeWhile p).length) :
    (l.drop k).takeWhile p = (l.takeWhile p).drop k := by
  induction l generalizing k with
  | nil => simp
  | cons a l ih =>
    cases k with
    | zero => simp
    | succ k =>
      by_cases ha : p a = true
      · rw [List.takeWhile_cons_of_pos ha] at hk ⊢
        simp only [List.length_cons, Nat.add_le_add_iff_right] at hk
        simpa using ih k hk
      · rw [List.takeWhile_cons_of_neg ha] at hk
        simp at hk

/-- Moving a pointer forward inside a string does not move the string's terminator. -/
theorem terminator_of_le (buf : Buffer) (p q : Nat) (h1 : p ≤ q) (h2 : q ≤ terminator buf p) :
    terminator buf q = terminator buf p := by
  obtain ⟨k, rfl⟩ := Nat.exists_eq_add_of_le h1
  have hk : k ≤ (cstr buf p).length := by
    unfold terminator at h2; omega
  have : cstr buf (p + k) = (cstr buf p).drop k := by
    rw [cstr_add]
    simp only [cstr, List.drop_zero]
    have := takeWhile_drop_of_le (fun c => c != NUL) (buf.drop p) k (by simpa [cstr] using hk)
    simpa [List.drop_drop, Nat.add_comm] using this
  unfold terminator
  rw [this, List.length_drop]
  omega

theorem token_span_le (rest : List Char) :
    token_span rest ≤ (rest.takeWhile (fun c => c != NUL)).length := by
  cases rest with
  | nil => simp [token_span]
  | cons c r =>
    by_cases hn : c = NUL
    · simp [token_span, hn]
    · have htw : (c :: r).takeWhile (fun c => c != NUL) = c :: r.takeWhile (fun c => c != NUL) := by
        simp [List.takeWhile_cons, hn]
      rw [htw]
      by_cases hd : c ∈ delimiters
      · simp [token_span, hn, hd]
      · simp only [token_span, hn, hd, if_false, List.length_cons, strcspn]
        have := List.Sublist.length_le
          (List.takeWhile_sublist (l := r.takeWhile (fun c => c != NUL))
            (fun c => !delimiters.contains c))
        omega

/-- Every call `lex(current.end, &current)` succeeds with a token that lies between the
old position and the terminator. -/
theorem lex_current_bounds (buf : Buffer) (cur : Token) :
    ∃ t, lex_current buf cur = (ok, t) ∧ cur.end_ ≤ t.beginning ∧ t.beginning ≤ t.end_ ∧
      t.end_ ≤ terminator buf cur.end_ := by
  have hsplit : buf.drop cur.end_ =
      (buf.drop cur.end_).takeWhile (fun c => whitespace.contains c) ++
        (buf.drop cur.end_).dropWhile (fun c => whitespace.contains c) := by simp
  have hws : ∀ c ∈ (buf.drop cur.end_).takeWhile (fun c => whitespace.contains c),
      c ∈ whitespace := by
    intro c hc
    simpa using List.mem_takeWhile_imp hc
  have hrest : ∀ c, ((buf.drop cur.end_).dropWhile (fun c => whitespace.contains c)).head? = some c →
      c ∉ whitespace := by
    intro c hc
    have := List.head?_dropWhile_not (fun c => whitespace.contains c) (buf.drop cur.end_)
    rw [hc] at this
    simpa using this
  have hlex := lex_view buf cur.end_ cur _ _ hsplit hws hrest
  have hnn : ∀ c ∈ (buf.drop cur.end_).takeWhile (fun c => whitespace.contains c),
      (fun c => c != NUL) c = true := by
    intro c hc
    have := hws c hc
    simp only [bne_iff_ne, ne_eq]
    intro h
    exact NUL_not_mem_whitespace (h ▸ this)
  have hlen : (cstr buf cur.end_).length =
      ((buf.drop cur.end_).takeWhile (fun c => whitespace.contains c)).length +
        (((buf.drop cur.end_).dropWhile (fun c => whitespace.contains c)).takeWhile
          (fun c => c != NUL)).length := by
    unfold cstr
    conv_lhs => rw [hsplit]
    rw [List.takeWhile_append_of_pos hnn, List.length_append]
  have hspan := token_span_le ((buf.drop cur.end_).dropWhile (fun c => whitespace.contains c))
  have hcur : lex_current buf cur = (ok,
      ⟨cur.end_ + ((buf.drop cur.end_).takeWhile (fun c => whitespace.contains c)).length,
        cur.end_ + ((buf.drop cur.end_).takeWhile (fun c => whitespace.contains c)).length +
          token_span ((buf.drop cur.end_).dropWhile (fun c => whitespace.contains c))⟩) := by
    simp only [lex_current, hlex, Option.getD_some]
  refine ⟨_, hcur, ?_, ?_, ?_⟩
  · simp
  · simp
  · simp only [terminator, hlen]
    omega

theorem parse_symbol_kind (buf : Buffer) (t : Token) (n : Node) :
    ((parse_symbol buf t n).1.type = ErrorType.ERROR_NONE ∨
        (parse_symbol buf t n).1.type = ErrorType.ERROR_TODO) ∧
      (parse_symbol buf t n).2.children = NodePtr.null := by
  unfold parse_symbol
  simp only
  split_ifs <;> simp [ok]

theorem parse_integer_children (buf : Buffer) (t : Token) (n : Node) :
    ((parse_integer buf (some t) (some n)).2.getD n).children = n.children := by
  unfold parse_integer
  simp only
  split_ifs <;> simp

/-- One pass through the loop body keeps the scan inside the source. -/
theorem parse_expr_body_within (buf : Buffer) (lo T : Nat) (err : Error) (cur : Token)
    (result : Node) (herr : err.type = ErrorType.ERROR_NONE) (hb : cur.beginning ≤ cur.end_)
    (hlo : lo ≤ cur.end_) (hT : cur.end_ ≤ T) (hterm : terminator buf cur.end_ = T) :
    Flow.within buf lo T cur result (parse_expr_body buf err cur result) := by
  obtain ⟨t1, h1, a1, b1, c1⟩ := lex_current_bounds buf cur
  rw [hterm] at c1
  have ht1 : terminator buf t1.end_ = T := by
    rw [← hterm]; exact terminator_of_le buf cur.end_ t1.end_ (by omega) (by rw [hterm]; exact c1)
  obtain ⟨t2, h2, a2, b2, c2⟩ := lex_current_bounds buf t1
  rw [ht1] at c2
  have ht2 : terminator buf t2.end_ = T := by
    rw [← ht1]; exact terminator_of_le buf t1.end_ t2.end_ (by omega) (by rw [ht1]; exact c2)
  obtain ⟨t3, h3, a3, b3, c3⟩ := lex_current_bounds buf t2
  rw [ht2] at c3
  have ht3 : terminator buf t3.end_ = T := by
    rw [← ht2]; exact terminator_of_le buf t2.end_ t3.end_ (by omega) (by rw [ht2]; exact c3)
  have hok : ok.type = ErrorType.ERROR_NONE := rfl
  have hpc := parse_integer_children buf cur result
  simp only [parse_expr_body, h1, h2, h3, hok, ne_eq, not_true_eq_false, if_false]
  split_ifs with g1 g2 g3 g4 g5 g6 g7 g8
  all_goals simp only [Flow.within]
  all_goals repeat' apply And.intro
  all_goals first
    | omega
    | assumption
    | rfl
    | exact Or.inl rfl
    | exact (parse_symbol_kind _ _ _).1
    | (intro h; first | exact (parse_symbol_kind _ _ _).2 | (rw [hpc]; exact h))

/-- Whatever the loop returns is an error of kind `None` or `Todo`, with `*end` inside
the source. -/
theorem parse_expr_loop_within (buf : Buffer) (lo T : Nat) :
    ∀ (fuel : Nat) (cur : Token) (end_ : Nat) (result : Node) (p : Parsed),
      lo ≤ cur.end_ → cur.end_ ≤ T → terminator buf cur.end_ = T →
      parse_expr_loop buf fuel cur end_ result = some p →
      (p.err.type = ErrorType.ERROR_NONE ∨ p.err.type = ErrorType.ERROR_TODO) ∧
        lo ≤ p.end_ ∧ p.end_ ≤ T := by
  intro fuel
  induction fuel with
  | zero => intro cur end_ result p _ _ _ h; simp [parse_expr_loop] at h
  | succ fuel ih =>
    intro cur end_ result p hlo hT hterm h
    obtain ⟨t, h1, a1, b1, c1⟩ := lex_current_bounds buf cur
    rw [hterm] at c1
    have ht : terminator buf t.end_ = T := by
      rw [← hterm]; exact terminator_of_le buf cur.end_ t.end_ (by omega) (by rw [hterm]; exact c1)
    have hw := parse_expr_body_within buf lo T ok t result rfl b1 (by omega) c1 ht
    have hok : ok.type = ErrorType.ERROR_NONE := rfl
    simp only [parse_expr_loop, h1, hok, ne_eq, not_true_eq_false, if_false] at h
    cases hflow : parse_expr_body buf ok t result with
    | ret e en r =>
      rw [hflow] at h hw
      simp only [Option.some.injEq] at h
      subst h
      exact hw
    | brk e en r =>
      rw [hflow] at h hw
      simp only [Option.some.injEq] at h
      subst h
      exact ⟨Or.inl hw.1, hw.2⟩
    | next e cur2 en r =>
      rw [hflow] at h hw
      simp only [Flow.within] at hw
      obtain ⟨-, w2, w3, w4, -, -, -⟩ := hw
      simp only [Option.bind_eq_some] at h
      obtain ⟨_, -, h⟩ := h
      exact ih cur2 en r p (by omega) w3 w4 h

/-- With no children under the result, the loop returns once the fuel exceeds the
distance to the terminator. -/
theorem parse_expr_loop_returns (buf : Buffer) (T : Nat) :
    ∀ (fuel : Nat) (cur : Token) (end_ : Nat) (result : Node),
      cur.end_ ≤ T → terminator buf cur.end_ = T → result.children = NodePtr.null →
      T - cur.end_ < fuel → ∃ p, parse_expr_loop buf fuel cur end_ result = some p := by
  intro fuel
  induction fuel with
  | zero => intro cur end_ result _ _ _ h; omega
  | succ fuel ih =>
    intro cur end_ result hT hterm hch hfuel
    obtain ⟨t, h1, a1, b1, c1⟩ := lex_current_bounds buf cur
    rw [hterm] at c1
    have ht : terminator buf t.end_ = T := by
      rw [← hterm]; exact terminator_of_le buf cur.end_ t.end_ (by omega) (by rw [hterm]; exact c1)
    have hw := parse_expr_body_within buf 0 T ok t result rfl b1 (by omega) c1 ht
    have hok : ok.type = ErrorType.ERROR_NONE := rfl
    simp only [parse_expr_loop, h1, hok, ne_eq, not_true_eq_false, if_false]
    cases hflow : parse_expr_body buf ok t result with
    | ret e en r => exact ⟨_, rfl⟩
    | brk e en r => exact ⟨_, rfl⟩
    | next e cur2 en r =>
      rw [hflow] at hw
      simp only [Flow.within] at hw
      obtain ⟨w1, w2, w3, w4, -, -, w7⟩ := hw
      have hr := w7 hch
      have hfuel2 : T - cur2.end_ < fuel := by omega
      obtain ⟨f, rfl⟩ : ∃ f, fuel = f + 1 := ⟨fuel - 1, by omega⟩
      obtain ⟨p, hp⟩ := ih cur2 en r w3 w4 hr hfuel2
      refine ⟨p, ?_⟩
      have hprint : node_print (f + 1) r.addr 0 = some () := by
        simp only [Node.addr, hr]
        exact node_print_leaf f _ _ _ _
      simp only [hprint, Option.some_bind, hp]

/-- C17: called with a result node that has no children, `parse_expr` returns for every
source, within a number of loop passes bounded by the length of the source plus one. -/
theorem parse_expr_terminates (buf : Buffer) (source end_ : Nat) (result : Node) (fuel : Nat)
    (hch : result.children = NodePtr.null) (hfuel : (cstr buf source).length + 1 ≤ fuel) :
    ∃ p, parse_expr fuel buf source end_ result = some p := by
  apply parse_expr_loop_returns buf (terminator buf source) fuel ⟨source, source⟩ end_ result
    _ rfl hch
  · simp only [terminator]; omega
  · simp [terminator]

theorem parse_expr_terminates_witness :
    ∃ p, parse_expr 15 "let x y 7 ( z".toList 0 0 Node.zeroed = some p :=
  parse_expr_terminates "let x y 7 ( z".toList 0 0 Node.zeroed 15 rfl (by decide)

/-- C18: for every source, an error that `parse_expr` returns is of kind `None` or `Todo`,
never `Syntax`, `Arguments`, `Type` or `Generic`; and with a result node without
children it does return one. -/
theorem parse_expr_error_kinds (buf : Buffer) (source end_ : Nat) (result : Node) :
    (∀ fuel p, parse_expr fuel buf source end_ result = some p →
        p.err.type = ErrorType.ERROR_NONE ∨ p.err.type = ErrorType.ERROR_TODO) ∧
      (result.children = NodePtr.null →
        ∃ p, parse_expr ((cstr buf source).length + 1) buf source end_ result = some p ∧
          (p.err.type = ErrorType.ERROR_NONE ∨ p.err.type = ErrorType.ERROR_TODO)) := by
  have hpart : ∀ fuel p, parse_expr fuel buf source end_ result = some p →
      p.err.type = ErrorType.ERROR_NONE ∨ p.err.type = ErrorType.ERROR_TODO := by
    intro fuel p h
    exact (parse_expr_loop_within buf source (terminator buf source) fuel ⟨source, source⟩ end_
      result p (Nat.le_refl _) (by simp [terminator]) rfl h).1
  refine ⟨hpart, fun hch => ?_⟩
  obtain ⟨p, hp⟩ := parse_expr_loop_returns buf (terminator buf source)
    ((cstr buf source).length + 1) ⟨source, source⟩ end_ result (by simp [terminator]) rfl hch
    (by simp only [terminator]; omega)
  exact ⟨p, hp, hpart _ p hp⟩

/-- C20: for every source, the offset `*end` that `parse_expr` reports on return lies
between the start of the source and its terminator; and with a result node without
children it does return. -/
theorem parse_expr_end_in_bounds (buf : Buffer) (source end_ : Nat) (result : Node) :
    (∀ fuel p, parse_expr fuel buf source end_ result = some p →
        source ≤ p.end_ ∧ p.end_ ≤ source + (cstr buf source).length) ∧
      (result.children = NodePtr.null →
        ∃ p, parse_expr ((cstr buf source).length + 1) buf source end_ result = some p ∧
          source ≤ p.end_ ∧ p.end_ ≤ source + (cstr buf source).length) := by
  have hpart : ∀ fuel p, parse_expr fuel buf source end_ result = some p →
      source ≤ p.end_ ∧ p.end_ ≤ source + (cstr buf source).length := by
    intro fuel p h
    exact (parse_expr_loop_within buf source (terminator buf source) fuel ⟨source, source⟩ end_
      result p (Nat.le_refl _) (by simp [terminator]) rfl h).2
  refine ⟨hpart, fun hch => ?_⟩
  obtain ⟨p, hp⟩ := parse_expr_loop_returns buf (terminator buf source)
    ((cstr buf source).length + 1) ⟨source, source⟩ end_ result (by simp [terminator]) rfl hch
    (by simp only [terminator]; omega)
  exact ⟨p, hp, hpart _ p hp⟩

theorem parse_expr_error_kinds_witness :
    ∃ p, parse_expr ((cstr "let ( 5 x".toList 0).length + 1) "let ( 5 x".toList 0 0 Node.zeroed
        = some p ∧
      (p.err.type = ErrorType.ERROR_NONE ∨ p.err.type = ErrorType.ERROR_TODO) :=
  (parse_expr_error_kinds "let ( 5 x".toList 0 0 Node.zeroed).2 rfl

theorem parse_expr_end_in_bounds_witness :
    ∃ p, parse_expr ((cstr "12 foo  ".toList 0).length + 1) "12 foo  ".toList 0 0 Node.zeroed
        = some p ∧
      0 ≤ p.end_ ∧ p.end_ ≤ 0 + (cstr "12 foo  ".toList 0).length :=
  (parse_expr_end_in_bounds "12 foo  ".toList 0 0 Node.zeroed).2 rfl

end Yapl
